import Mathlib

/-!
Verification development for the Taurion game-state processor (GSP).

The definitions below are shallow embeddings of the C++ source of the
repository: protobuf messages become structures with Option fields for
optional members, unsigned integers become Nat (all arithmetic in the
embedded code stays well below 2^32, and the C++ uses checked unsigned
values), sentinel values such as NO_CONNECTION and Faction INVALID become
Option, and CHECK assertions that can fail become Option or Except
results (returning none on an assertion failure).  Database iteration is
embedded as explicit lists in iteration order, and the deterministic
PRNG as an explicit stream of draws.
-/

namespace Taurion

/-- Embedding of proto HP (armour and shield hit points, without the
partial milli-HP part, which is kept separately where needed). -/
structure HP where
  armour : Nat := 0
  shield : Nat := 0
  deriving DecidableEq, Repr

/-- Embedding of proto Attack.Damage: the damage roll range, the weapon
size and the shield/armour damage percentages, all optional fields. -/
structure Damage where
  minDmg : Nat := 0
  maxDmg : Nat := 0
  weapon_size : Option Nat := none
  shield_percent : Option Nat := none
  armour_percent : Option Nat := none
  deriving DecidableEq, Repr

/-- Embedding of the part of proto CombatData used by BaseHitChance:
the optional target size. -/
structure CombatData where
  target_size : Option Nat := none
  deriving DecidableEq, Repr

/-- Embedding of ComputeDamage from the combat source file: splits a
damage roll between shield and armour using the percentage fractions
(defaulting to 100), never damaging armour while shield is left. -/
def ComputeDamage (dmg : Nat) (pb : Damage) (hp : HP) : HP :=
  let shieldPercent := pb.shield_percent.getD 100
  let armourPercent := pb.armour_percent.getD 100
  let availableForShield := dmg * shieldPercent / 100
  let doneShield := min availableForShield hp.shield
  if doneShield < hp.shield then
    { shield := doneShield, armour := 0 }
  else
    let dmg2 := if doneShield > 0 then dmg - doneShield * 100 / shieldPercent else dmg
    let availableForArmour := dmg2 * armourPercent / 100
    { shield := doneShield, armour := min availableForArmour hp.armour }

/-- The base damage still available for armour after the shield step of
ComputeDamage (the value of dmg at the point where availableForArmour is
computed in the source). -/
def remainingAfterShield (dmg : Nat) (pb : Damage) (hp : HP) : Nat :=
  let shieldPercent := pb.shield_percent.getD 100
  let doneShield := min (dmg * shieldPercent / 100) hp.shield
  if doneShield < hp.shield then dmg
  else if doneShield > 0 then dmg - doneShield * 100 / shieldPercent else dmg

/-- Definition following the words of the spec for the shield/armour
split (section on the shield/armour split): compute available_for_shield
with truncating division, cap by shield; if the shield is not exhausted
the armour is untouched; otherwise deduct the base damage used for the
shield and apply the armour percentage to the rest. -/
def ComputeDamageSpec (dmg : Nat) (pb : Damage) (hp : HP) : HP :=
  let shieldPercent := pb.shield_percent.getD 100
  let armourPercent := pb.armour_percent.getD 100
  let availableForShield := dmg * shieldPercent / 100
  let doneShield := min availableForShield hp.shield
  if doneShield < hp.shield then
    { shield := doneShield, armour := 0 }
  else
    let dmg2 := dmg - doneShield * 100 / shieldPercent
    let availableForArmour := dmg2 * armourPercent / 100
    { shield := doneShield, armour := min availableForArmour hp.armour }

/-- Embedding of BaseHitChance: a guaranteed hit (100) when either size
is missing or the target is at least as big as the weapon; otherwise the
ratio in percent.  The CHECK assertions on positive sizes are embedded
as none results. -/
def BaseHitChance (target : CombatData) (dmg : Damage) : Option Nat :=
  match target.target_size, dmg.weapon_size with
  | none, _ => some 100
  | some _, none => some 100
  | some ts, some ws =>
      if ts ≥ ws then some 100
      else if 0 < ts then
        if 0 < ws then some (ts * 100 / ws) else none
      else none

/-- Factions of the game (INVALID is represented as none of Option
Faction, ancient buildings do not take part in the movement logic
embedded here). -/
inductive Faction where
  | red
  | green
  | blue
  deriving DecidableEq, Repr

/-- Axial hex coordinates. -/
structure HexCoord where
  x : Int
  y : Int
  deriving DecidableEq, Repr

/-- Modelled from the spec: the L1 hex distance of section 4.1 (the
hexagonal coordinate source is not part of the given files); distance of
the difference vector, computed as (|x| + |y| + |x+y|) / 2. -/
def DistanceL1 (a b : HexCoord) : Nat :=
  (((a.x - b.x).natAbs + (a.y - b.y).natAbs + (a.x - b.x + (a.y - b.y)).natAbs) / 2)

/-- The read-only map data used by MovementEdgeWeight: base edge weights
(none is the NO_CONNECTION sentinel) and the starter-zone faction of a
coordinate (none is faction INVALID). -/
structure BaseMap where
  getEdgeWeight : HexCoord → HexCoord → Option Nat
  starterFor : HexCoord → Option Faction

/-- Embedding of MovementEdgeWeight from the movement source: starter
zones block other factions and give 3x faster movement to their own. -/
def MovementEdgeWeight (map : BaseMap) (f : Faction) (fromC toC : HexCoord) :
    Option Nat :=
  match map.getEdgeWeight fromC toC with
  | none => none
  | some baseWeight =>
      match map.starterFor toC with
      | none => some baseWeight
      | some toStarter =>
          if toStarter = f then some (baseWeight / 3) else none

/-- Embedding of RegenerateHpType: advances one HP type by a milli-HP
rate, carrying fractional state modulo 1000 and capping at the maximum.
Both CHECK assertions (entry precondition and the no-overshoot exit
assertion) are embedded as none results. -/
def RegenerateHpType (max mhpRate oldCur oldMilli : Nat) : Option (Nat × Nat) :=
  if oldCur < max ∨ (oldCur = max ∧ oldMilli = 0) then
    let m1 := oldMilli + mhpRate
    let cur1 := oldCur + m1 / 1000
    let milli1 := m1 % 1000
    let res := if cur1 ≥ max then (max, 0) else (cur1, milli1)
    if res.1 > oldCur ∨ (res.1 = oldCur ∧ res.2 ≥ oldMilli) then some res
    else none
  else none

/-- Fighter HP state including the partial milli-HP values. -/
structure FighterHP where
  armour : Nat := 0
  shield : Nat := 0
  mhpArmour : Nat := 0
  mhpShield : Nat := 0
  deriving DecidableEq, Repr

/-- Embedding of proto RegenData: maximum HP and the per-block milli-HP
regeneration rates. -/
structure RegenData where
  maxHp : HP := {}
  regenMhp : HP := {}
  deriving DecidableEq, Repr

/-- The state of one fighter as needed for HP regeneration. -/
structure RegenFighter where
  regen : RegenData := {}
  hp : FighterHP := {}
  deriving DecidableEq, Repr

/-- Embedding of RegenerateFighterHP: regenerates armour with the raw
armour rate and shield with the rate modified by the shield_regen
effect.  The application of the StatModifier built from the current
shield_regen effect is passed in as the function shieldRegenMod (the
modifier source is not among the given files, so the claim is stated for
every possible modifier function). -/
def RegenerateFighterHP (shieldRegenMod : Nat → Nat) (f : RegenFighter) :
    Option RegenFighter :=
  match RegenerateHpType f.regen.maxHp.armour f.regen.regenMhp.armour
      f.hp.armour f.hp.mhpArmour with
  | none => none
  | some (curA, milliA) =>
      let shieldRate := shieldRegenMod f.regen.regenMhp.shield
      match RegenerateHpType f.regen.maxHp.shield shieldRate
          f.hp.shield f.hp.mhpShield with
      | none => none
      | some (curS, milliS) =>
          some { f with hp := { armour := curA, shield := curS,
                                mhpArmour := milliA, mhpShield := milliS } }

/-- The busy-operation variant tag of a character (the busy oneof of the
character proto as dispatched in ProcessBusy): prospection is the only
tag the dispatch recognises, every other tag value is unexpected. -/
inductive BusyCase where
  | prospection
  | unknown (tag : Nat)
  deriving DecidableEq, Repr

/-- The per-character state relevant to the ongoing-operations phase:
the busy-block counter, the busy variant tag and a flag recording that
the prospection finaliser ran. -/
structure BusyCharacter where
  busy : Nat := 0
  busyCase : BusyCase := BusyCase.prospection
  prospectionFinished : Bool := false
  deriving DecidableEq, Repr

/-- Modelled from the spec: FinishProspecting (the prospecting source is
not among the given files) finalises the prospection of the region --
randomly determining resource type, amount and prizes -- and leaves the
character no longer busy; only the effect on the busy state matters
here, the rest is abstracted into the prospectionFinished flag. -/
def FinishProspecting (c : BusyCharacter) : BusyCharacter :=
  { c with busy := 0, prospectionFinished := true }

/-- Embedding of the loop body of ProcessBusy from logic.cpp for one
character returned by QueryBusyDone (modelled from the spec as the
characters whose busy counter is exactly one, matching the CHECK in the
source): dispatch on the busy case, running FinishProspecting for
prospection; any other tag is a fatal error, embedded as Except.error,
as is a finaliser that fails to clear the busy counter. -/
def processBusyChar (c : BusyCharacter) : Except String BusyCharacter :=
  if c.busy = 1 then
    match c.busyCase with
    | BusyCase.prospection =>
        let c2 := FinishProspecting c
        if c2.busy = 0 then Except.ok c2
        else Except.error "busy counter not cleared by finaliser"
    | BusyCase.unknown _ => Except.error "Unexpected busy case"
  else Except.ok c

/-- Modelled from the spec: DecrementBusy decrements the busy counter of
every character that has a positive one. -/
def DecrementBusy (c : BusyCharacter) : BusyCharacter :=
  if 0 < c.busy then { c with busy := c.busy - 1 } else c

/-- The finaliser loop of ProcessBusy over the characters in database
iteration order, propagating a fatal error. -/
def processBusyList : List BusyCharacter → Except String (List BusyCharacter)
  | [] => Except.ok []
  | c :: rest =>
      match processBusyChar c with
      | Except.error e => Except.error e
      | Except.ok c2 =>
          match processBusyList rest with
          | Except.error e => Except.error e
          | Except.ok rest2 => Except.ok (c2 :: rest2)

/-- Embedding of ProcessBusy from logic.cpp: run the finalisers for all
busy-done characters, then decrement the busy counter of every still
busy character. -/
def ProcessBusy (cs : List BusyCharacter) : Except String (List BusyCharacter) :=
  match processBusyList cs with
  | Except.error e => Except.error e
  | Except.ok cs2 => Except.ok (cs2.map DecrementBusy)

/-- Target type tag for characters (proto TargetId.Type). -/
def TYPE_CHARACTER : Nat := 1

/-- Target type tag for buildings (proto TargetId.Type). -/
def TYPE_BUILDING : Nat := 2

/-- Embedding of TargetKey from the combat source: the pair of target
type and database id. -/
structure TargetKey where
  ty : Nat
  id : Nat
  deriving DecidableEq, Repr

/-- The deterministic PRNG, embedded as a stream of uniform draws in the
range zero to 99 together with the current read position; consuming a
draw advances the position. -/
structure Rng where
  stream : Nat → Nat
  pos : Nat := 0

/-- Embedding of ProbabilityRoll with denominator 100: succeeds when the
next draw is below the numerator, consuming exactly one draw. -/
def probabilityRoll (r : Rng) (chance : Int) : Bool × Rng :=
  (decide ((r.stream r.pos : Int) < chance), { r with pos := r.pos + 1 })

/-- Embedding of AttackHitsTarget: the base hit chance, modified by the
attacker hit-chance modifier (passed in as a function, as the modifier
source is not among the given files); no random roll happens at all when
the chance is fully 0 or 100.  Returns the outcome together with the
PRNG state; none embeds a failed CHECK inside BaseHitChance. -/
def AttackHitsTarget (hitChanceMod : Int → Int) (target : CombatData)
    (attack : Damage) (rng : Rng) : Option (Bool × Rng) :=
  match BaseHitChance target attack with
  | none => none
  | some c0 =>
      let chance := hitChanceMod (c0 : Int)
      if chance ≤ 0 then some (false, rng)
      else if 100 ≤ chance then some (true, rng)
      else some (probabilityRoll rng chance)

/-- The state of the fighter being attacked, as used by ApplyDamage. -/
structure DamageTarget where
  key : TargetKey
  pos : HexCoord
  combat : CombatData := {}
  hp : FighterHP := {}

/-- The mutable state threaded through damage dealing: the PRNG, the
damage lists (entries of victim id and attacker id) and the set of newly
dead targets of the current round. -/
structure DamageState where
  rng : Rng
  damageList : List (Nat × Nat) := []
  newDead : List TargetKey := []

/-- Embedding of the low-level DamageProcessor ApplyDamage: a target in
a no-combat zone is a failed CHECK; a target in the already-dead set is
left completely untouched without any random roll; otherwise the hit
roll, the received-damage modifier of the target (passed in as a
function), the damage-list entry for character-on-character damage, the
shield/armour split, the HP update and the new-dead bookkeeping happen
exactly as in the source, with failed CHECK assertions embedded as
none. -/
def ApplyDamage (noCombat : HexCoord → Bool) (alreadyDead : List TargetKey)
    (hitChanceMod : Int → Int) (recvDamageMod : Nat → Int)
    (dmg : Nat) (attackerKey : TargetKey) (pb : Damage)
    (target : DamageTarget) (st : DamageState) :
    Option (HP × DamageTarget × DamageState) :=
  if noCombat target.pos then none
  else if target.key ∈ alreadyDead then some ({}, target, st)
  else
    match AttackHitsTarget hitChanceMod target.combat pb st.rng with
    | none => none
    | some (hit, rng2) =>
        if !hit then some ({}, target, { st with rng := rng2 })
        else if recvDamageMod dmg < 0 then none
        else
          let dmg2 := (recvDamageMod dmg).toNat
          if dmg2 = 0 then some ({}, target, { st with rng := rng2 })
          else
            let dl := if attackerKey.ty = TYPE_CHARACTER
                ∧ target.key.ty = TYPE_CHARACTER
              then (target.key.id, attackerKey.id) :: st.damageList
              else st.damageList
            let done := ComputeDamage dmg2 pb
              { armour := target.hp.armour, shield := target.hp.shield }
            let hp2 : FighterHP := { target.hp with
              armour := target.hp.armour - done.armour,
              shield := target.hp.shield - done.shield }
            if 0 < done.shield + done.armour ∧ hp2.armour + hp2.shield = 0 then
              if target.hp.mhpShield < 1000 ∧ target.hp.mhpArmour < 1000
                  ∧ target.key ∉ st.newDead then
                some (done, { target with hp := hp2 },
                  { st with
                    rng := rng2
                    damageList := dl
                    newDead := target.key :: st.newDead })
              else none
            else some (done, { target with hp := hp2 },
              { st with rng := rng2, damageList := dl })

/-- Information about one potential target fighter as seen by the
target finder: its target key, combat position and faction. -/
structure FighterInfo where
  key : TargetKey
  pos : HexCoord
  faction : Faction
  deriving DecidableEq, Repr

/-- The attacking fighter as needed for target finding: identity,
combat position, faction, the range of its normal attacks (none embeds
the NO_ATTACKS sentinel of CombatEntity) and whether a mentecon effect
is active. -/
structure AttackerInfo where
  key : TargetKey
  pos : HexCoord
  faction : Faction
  attackRange : Option Nat := none
  mentecon : Bool := false
  deriving DecidableEq, Repr

/-- Modelled from the spec: ProcessL1Targets of the target finder (the
target-finder source is not among the given files) visits, in database
iteration order, every fighter within the given L1 radius of the centre
whose faction relation matches the enemies and friendlies flags. -/
def ProcessL1Targets (cands : List FighterInfo) (centre : HexCoord)
    (range : Nat) (faction : Faction)
    (lookForEnemies lookForFriendlies : Bool) : List FighterInfo :=
  cands.filter fun c =>
    decide (DistanceL1 centre c.pos ≤ range)
      && ((lookForEnemies && decide (c.faction ≠ faction))
          || (lookForFriendlies && decide (c.faction = faction)))

/-- Embedding of ProcessCombatTargets: filters the L1 targets further,
dropping fighters in a no-combat zone and the fighter itself; a
mentecon makes the search look for enemies and friendlies alike. -/
def ProcessCombatTargets (cands : List FighterInfo)
    (noCombat : HexCoord → Bool) (f : AttackerInfo) (centre : HexCoord)
    (range : Nat) (enemies : Bool) : List FighterInfo :=
  (ProcessL1Targets cands centre range f.faction (enemies || f.mentecon)
      (!enemies || f.mentecon)).filter
    fun c => !noCombat c.pos && !(decide (c.key = f.key))

/-- One step of the closest-enemy fold of SelectNormalTarget: the
accumulator is the closest distance so far together with the list of
targets at that distance (none while the list is still empty). -/
def closestStep (pos : HexCoord) (acc : Option (Nat × List FighterInfo))
    (c : FighterInfo) : Option (Nat × List FighterInfo) :=
  match acc with
  | none => some (DistanceL1 pos c.pos, [c])
  | some (m, ts) =>
      if DistanceL1 pos c.pos < m then some (DistanceL1 pos c.pos, [c])
      else if DistanceL1 pos c.pos = m then some (m, ts ++ [c])
      else some (m, ts)

/-- Embedding of SelectNormalTarget: for a fighter with normal attacks,
collect the closest fighters among the processed combat targets within
the modified attack range (the application of the range StatModifier of
the fighter is passed in as the function modRange, as the modifier
source is not among the given files). -/
def SelectNormalTarget (modRange : Nat → Nat) (noCombat : HexCoord → Bool)
    (cands : List FighterInfo) (f : AttackerInfo) : List FighterInfo :=
  match f.attackRange with
  | none => []
  | some r =>
      match (ProcessCombatTargets cands noCombat f f.pos (modRange r)
          true).foldl (closestStep f.pos) none with
      | none => []
      | some (_, ts) => ts

/-- Embedding of the enemy-target part of SelectTarget: a fighter in a
no-combat zone selects no targets at all. -/
def SelectTarget (modRange : Nat → Nat) (noCombat : HexCoord → Bool)
    (cands : List FighterInfo) (f : AttackerInfo) : List FighterInfo :=
  if noCombat f.pos then [] else SelectNormalTarget modRange noCombat cands f

/-- Embedding of the enemy part of Finalise: clear the target when no
enemy was collected, otherwise store the element picked by the PRNG
(rndNextInt embeds NextInt of the random stream, called on the size of
the collected list). -/
def Finalise (rndNextInt : Nat → Nat) (enemyTargets : List FighterInfo) :
    Option TargetKey :=
  if enemyTargets.isEmpty then none
  else (enemyTargets.get? (rndNextInt enemyTargets.length)).map
    (fun c => c.key)

/-- The per-fighter enemy-target acquisition: SelectTarget followed by
Finalise. -/
def acquireTarget (rndNextInt : Nat → Nat) (modRange : Nat → Nat)
    (noCombat : HexCoord → Bool) (cands : List FighterInfo)
    (f : AttackerInfo) : Option TargetKey :=
  Finalise rndNextInt (SelectTarget modRange noCombat cands f)

/-- Definition following the words of the spec for target acquisition:
the fighters eligible as enemies of f are those within the given range,
counting as an enemy (different faction, or anyone when f is under a
mentecon), not standing on a no-combat tile and not f itself. -/
def eligibleEnemies (noCombat : HexCoord → Bool) (cands : List FighterInfo)
    (f : AttackerInfo) (range : Nat) : List FighterInfo :=
  cands.filter fun c =>
    decide (DistanceL1 f.pos c.pos ≤ range)
      && (decide (c.faction ≠ f.faction) || f.mentecon)
      && !noCombat c.pos && !(decide (c.key = f.key))

/-- The running minimum of the distances from pos over a list of
fighters, starting from the value m. -/
def runningMinDist (pos : HexCoord) (m : Nat) (l : List FighterInfo) : Nat :=
  l.foldl (fun acc c => min acc (DistanceL1 pos c.pos)) m

/-- The minimum distance from pos attained in a list of fighters (zero
for the empty list). -/
def minDistOf (pos : HexCoord) : List FighterInfo → Nat
  | [] => 0
  | c :: rest => runningMinDist pos (DistanceL1 pos c.pos) rest

/-- Lookup of the accumulated gained HP of an attacker in the gained-HP
map (zero when the attacker has no entry). -/
def lookupHP : List (TargetKey × HP) → TargetKey → HP
  | [], _ => {}
  | (k2, v) :: rest, k => if k2 = k then v else lookupHP rest k

/-- Embedding of the map update adding drained HP to the gained-HP
entry of an attacker in the reconciliation loop of DamageProcessor
Process (creating the entry when absent). -/
def addGained : List (TargetKey × HP) → TargetKey → HP → List (TargetKey × HP)
  | [], k, g => [(k, g)]
  | (k2, v) :: rest, k, g =>
      if k2 = k then
        (k2, { armour := v.armour + g.armour, shield := v.shield + g.shield })
          :: rest
      else (k2, v) :: addGained rest k g

/-- Embedding of the per-attacker body of the reconciliation loop of
DamageProcessor Process: the CHECK assertions that armour drain is not
supported and that the drained shield is positive are embedded as none;
the attacker gains the drained HP of a type only if the target still
has HP of that type left or it was the only attacker draining it. -/
def reconcileDrain (tHp : HP) (numAttackers : Nat) (d : HP) : Option HP :=
  if d.armour ≠ 0 then none
  else if d.shield = 0 then none
  else some
    { armour := if 0 < tHp.armour ∨ numAttackers = 1 then d.armour else 0,
      shield := if 0 < tHp.shield ∨ numAttackers = 1 then d.shield else 0 }

/-- The inner reconciliation loop over the attackers that drained one
target, accumulating positive gains into the gained-HP map. -/
def reconcileAttackers (tHp : HP) (n : Nat) :
    List (TargetKey × HP) → List (TargetKey × HP)
    → Option (List (TargetKey × HP))
  | acc, [] => some acc
  | acc, (a, d) :: rest =>
      match reconcileDrain tHp n d with
      | none => none
      | some g =>
          reconcileAttackers tHp n
            (if 0 < g.armour ∨ 0 < g.shield then addGained acc a g else acc)
            rest

/-- Embedding of the outer reconciliation loop of DamageProcessor
Process over the gainHpDrained map in its iteration order: for every
drained target, compute the gains of its attackers relative to the
target HP after the gain-hp pass.  The CHECK that the attacker map of a
target is non-empty is embedded as none. -/
def reconcileGainedHp (fighterHp : TargetKey → HP) :
    List (TargetKey × List (TargetKey × HP)) → List (TargetKey × HP)
    → Option (List (TargetKey × HP))
  | [], acc => some acc
  | (t, atks) :: rest, acc =>
      if atks.isEmpty then none
      else
        match reconcileAttackers (fighterHp t) atks.length acc atks with
        | none => none
        | some acc2 => reconcileGainedHp fighterHp rest acc2

/-- Embedding of the crediting loop at the end of DamageProcessor
Process: every attacker with a gained-HP entry that is not in the
already-dead set receives its gained HP, clamped at its maximum HP. -/
def creditGainedHp (alreadyDead : List TargetKey) (maxHp : TargetKey → HP) :
    List (TargetKey × HP) → (TargetKey → HP) → (TargetKey → HP)
  | [], hp => hp
  | (a, g) :: rest, hp =>
      creditGainedHp alreadyDead maxHp rest
        (if a ∈ alreadyDead then hp
         else fun k =>
           if k = a then
             { armour := min ((hp a).armour + g.armour) ((maxHp a).armour),
               shield := min ((hp a).shield + g.shield) ((maxHp a).shield) }
           else hp k)

/-- Definition following the words of the spec: the shield HP that one
target entry of the drained map credits to attacker a -- the amount a
drained from the target when the target still has shield left or a was
the only attacker, and nothing otherwise. -/
def drainCredit (fighterHp : TargetKey → HP)
    (entry : TargetKey × List (TargetKey × HP)) (a : TargetKey) : Nat :=
  (entry.2.map fun p =>
    if p.1 = a ∧ (0 < (fighterHp entry.1).shield ∨ entry.2.length = 1)
    then p.2.shield else 0).sum

/-- Definition following the words of the spec: the total shield HP the
whole drained map credits to attacker a. -/
def totalCredit (fighterHp : TargetKey → HP)
    (drained : List (TargetKey × List (TargetKey × HP))) (a : TargetKey) :
    Nat :=
  (drained.map fun e => drainCredit fighterHp e a).sum

/-- Well-formedness of a gained-HP map: distinct attacker keys, and
every entry has no armour gain and a positive shield gain. -/
def accWF (l : List (TargetKey × HP)) : Prop :=
  (l.map Prod.fst).Nodup ∧ ∀ p ∈ l, p.2.armour = 0 ∧ 0 < p.2.shield

/-- Map used for the C5 witness: every edge has base weight 30, every
tile is in the red starter zone. -/
def witnessMap : BaseMap :=
  { getEdgeWeight := fun _ _ => some 30, starterFor := fun _ => some Faction.red }

/-! Helper lemmas about the truncating percentage arithmetic. -/

theorem mulDivPercent_le (d sp : Nat) (hsp : sp ≤ 100) : d * sp / 100 ≤ d := by
  calc d * sp / 100 ≤ d * 100 / 100 :=
        Nat.div_le_div_right (Nat.mul_le_mul_left d hsp)
    _ = d := Nat.mul_div_cancel d (by norm_num)

theorem baseDone_le (d sp x : Nat) (hx : x ≤ d * sp / 100) (h0 : 0 < sp) :
    x * 100 / sp ≤ d := by
  have h1 : x * 100 ≤ d * sp := (Nat.le_div_iff_mul_le (by norm_num)).1 hx
  calc x * 100 / sp ≤ d * sp / sp := Nat.div_le_div_right h1
    _ = d := Nat.mul_div_cancel d h0

theorem le_baseDone (x sp : Nat) (hsp : sp ≤ 100) (h0 : 0 < sp) :
    x ≤ x * 100 / sp := by
  calc x = x * sp / sp := (Nat.mul_div_cancel x h0).symm
    _ ≤ x * 100 / sp := Nat.div_le_div_right (Nat.mul_le_mul_left x hsp)

/-- C3: ComputeDamage follows the shield/armour split algorithm of the
spec step for step: percentages default to 100, available_for_shield
uses truncating division, the shield damage is capped by the shield, the
armour is untouched while the shield is not exhausted, and otherwise the
base damage used for the shield is deducted before applying the armour
percentage. -/
theorem computeDamage_follows_spec (dmg : Nat) (pb : Damage) (hp : HP) :
    ComputeDamage dmg pb hp = ComputeDamageSpec dmg pb hp := by
  unfold ComputeDamage ComputeDamageSpec
  by_cases h : min (dmg * pb.shield_percent.getD 100 / 100) hp.shield < hp.shield
  · simp only [if_pos h]
  · simp only [if_neg h]
    by_cases h0 : 0 < min (dmg * pb.shield_percent.getD 100 / 100) hp.shield
    · simp only [if_pos h0]
    · have hz : min (dmg * pb.shield_percent.getD 100 / 100) hp.shield = 0 := by omega
      simp only [if_neg h0, hz, Nat.zero_mul, Nat.zero_div, Nat.sub_zero]
      norm_num

/-- C2 counterexample: at damage roll 10 with shield_percent 200, shield
20 and armour 5, the claimed conjunction fails (the total damage done is
20 although the roll was only 10). -/
theorem computeDamage_claim_counterexample :
    ¬ ((ComputeDamage 10 { shield_percent := some 200 }
          { shield := 20, armour := 5 }).shield ≤ min (10 * 200 / 100) 20
        ∧ (ComputeDamage 10 { shield_percent := some 200 }
            { shield := 20, armour := 5 }).armour
          ≤ min (remainingAfterShield 10 { shield_percent := some 200 }
                { shield := 20, armour := 5 } * 100 / 100) 5
        ∧ (ComputeDamage 10 { shield_percent := some 200 }
              { shield := 20, armour := 5 }).shield
            + (ComputeDamage 10 { shield_percent := some 200 }
                { shield := 20, armour := 5 }).armour ≤ 10) := by
  decide

/-- C2 (amended): whenever the shield and armour percentages in use are
at most 100, every result of ComputeDamage satisfies the shield bound,
the armour bound relative to the remaining base damage, and the total
bound by the damage roll. -/
theorem computeDamage_bounds (dmg : Nat) (pb : Damage) (hp : HP)
    (hsp : pb.shield_percent.getD 100 ≤ 100)
    (hap : pb.armour_percent.getD 100 ≤ 100) :
    (ComputeDamage dmg pb hp).shield
        ≤ min (dmg * pb.shield_percent.getD 100 / 100) hp.shield
    ∧ (ComputeDamage dmg pb hp).armour
        ≤ min (remainingAfterShield dmg pb hp * pb.armour_percent.getD 100 / 100)
            hp.armour
    ∧ (ComputeDamage dmg pb hp).shield + (ComputeDamage dmg pb hp).armour ≤ dmg := by
  unfold ComputeDamage remainingAfterShield
  by_cases h : min (dmg * pb.shield_percent.getD 100 / 100) hp.shield < hp.shield
  · simp only [if_pos h]
    refine ⟨le_refl _, Nat.zero_le _, ?_⟩
    have h1 : min (dmg * pb.shield_percent.getD 100 / 100) hp.shield
        ≤ dmg * pb.shield_percent.getD 100 / 100 := Nat.min_le_left _ _
    have h2 := mulDivPercent_le dmg _ hsp
    omega
  · simp only [if_neg h]
    by_cases h0 : 0 < min (dmg * pb.shield_percent.getD 100 / 100) hp.shield
    · simp only [if_pos h0]
      refine ⟨le_refl _, le_refl _, ?_⟩
      have hsp0 : 0 < pb.shield_percent.getD 100 := by
        by_contra hc
        have : pb.shield_percent.getD 100 = 0 := by omega
        simp [this] at h0
      have hds : min (dmg * pb.shield_percent.getD 100 / 100) hp.shield
          ≤ dmg * pb.shield_percent.getD 100 / 100 := Nat.min_le_left _ _
      have hb := baseDone_le dmg _ _ hds hsp0
      have hdsb := le_baseDone (min (dmg * pb.shield_percent.getD 100 / 100)
          hp.shield) _ hsp hsp0
      have ha1 : min ((dmg - min (dmg * pb.shield_percent.getD 100 / 100)
              hp.shield * 100 / pb.shield_percent.getD 100)
            * pb.armour_percent.getD 100 / 100) hp.armour
          ≤ (dmg - min (dmg * pb.shield_percent.getD 100 / 100) hp.shield
              * 100 / pb.shield_percent.getD 100)
            * pb.armour_percent.getD 100 / 100 := Nat.min_le_left _ _
      have ha2 := mulDivPercent_le (dmg - min (dmg * pb.shield_percent.getD 100
          / 100) hp.shield * 100 / pb.shield_percent.getD 100) _ hap
      omega
    · simp only [if_neg h0]
      refine ⟨le_refl _, le_refl _, ?_⟩
      have ha1 : min (dmg * pb.armour_percent.getD 100 / 100) hp.armour
          ≤ dmg * pb.armour_percent.getD 100 / 100 := Nat.min_le_left _ _
      have ha2 := mulDivPercent_le dmg _ hap
      omega

/-- Witness for the amended C2 statement at a concrete input. -/
theorem computeDamage_bounds_witness :
    (ComputeDamage 10 { shield_percent := some 50 } { shield := 5, armour := 8 }).shield
        ≤ min (10 * (50 : Nat) / 100) 5
    ∧ (ComputeDamage 10 { shield_percent := some 50 }
        { shield := 5, armour := 8 }).armour
        ≤ min (remainingAfterShield 10 { shield_percent := some 50 }
            { shield := 5, armour := 8 } * 100 / 100) 8
    ∧ (ComputeDamage 10 { shield_percent := some 50 }
          { shield := 5, armour := 8 }).shield
        + (ComputeDamage 10 { shield_percent := some 50 }
            { shield := 5, armour := 8 }).armour ≤ 10 :=
  computeDamage_bounds 10 { shield_percent := some 50 } { shield := 5, armour := 8 }
    (by decide) (by decide)

/-- C8 counterexample: with target_size set to 0 and weapon_size set to
1 the code hits a failed CHECK assertion (none) instead of returning the
ratio 0 * 100 / 1 that the claim demands. -/
theorem baseHitChance_claim_counterexample :
    ¬ (BaseHitChance { target_size := some 0 } { weapon_size := some 1 }
        = some (0 * 100 / 1)) := by
  decide

/-- C8 (amended): whenever both sizes are set and the target size is
positive, BaseHitChance returns 100 when the target is at least as big
as the weapon and otherwise the truncated percentage ratio. -/
theorem baseHitChance_sizes (cd : CombatData) (dmg : Damage) (ts ws : Nat)
    (hts : cd.target_size = some ts) (hws : dmg.weapon_size = some ws)
    (hpos : 0 < ts) :
    BaseHitChance cd dmg = some (if ts ≥ ws then 100 else ts * 100 / ws) := by
  unfold BaseHitChance
  rw [hts, hws]
  by_cases h : ts ≥ ws
  · simp [h]
  · have hws0 : 0 < ws := by omega
    simp [h, hpos, hws0]

/-- Witness for the amended C8 statement at target size 3, weapon size 6. -/
theorem baseHitChance_sizes_witness :
    BaseHitChance { target_size := some 3 } { weapon_size := some 6 } = some 50 := by
  have h := baseHitChance_sizes { target_size := some 3 } { weapon_size := some 6 }
    3 6 rfl rfl (by decide)
  simpa using h

/-- C10: if the target combat data has no target_size, or the damage
proto has no weapon_size, BaseHitChance returns 100 regardless of the
other field. -/
theorem baseHitChance_missing_size (cd : CombatData) (dmg : Damage)
    (h : cd.target_size = none ∨ dmg.weapon_size = none) :
    BaseHitChance cd dmg = some 100 := by
  unfold BaseHitChance
  rcases h with h | h
  · rw [h]
  · rw [h]
    cases cd.target_size <;> rfl

/-- Witness for C10 with both fields absent. -/
theorem baseHitChance_missing_size_witness :
    BaseHitChance { target_size := none } { weapon_size := none } = some 100 :=
  baseHitChance_missing_size _ _ (Or.inl rfl)

/-- C5: movement edge weight for a character of faction f stepping from
u to v: NO_CONNECTION stays NO_CONNECTION; a step into a starter zone of
a faction costs a third of the base weight for that faction and is
blocked for every other faction; outside starter zones the base weight
is unchanged. -/
theorem movementEdgeWeight_spec (map : BaseMap) (f : Faction) (u v : HexCoord) :
    (map.getEdgeWeight u v = none → MovementEdgeWeight map f u v = none)
    ∧ (∀ w, map.getEdgeWeight u v = some w →
        (map.starterFor v = none → MovementEdgeWeight map f u v = some w)
        ∧ (∀ g, map.starterFor v = some g →
            (g = f → MovementEdgeWeight map f u v = some (w / 3))
            ∧ (g ≠ f → MovementEdgeWeight map f u v = none))) := by
  refine ⟨fun h => ?_, fun w hw => ⟨fun hs => ?_, fun g hg => ⟨fun hgf => ?_, fun hgf => ?_⟩⟩⟩
  · simp [MovementEdgeWeight, h]
  · simp [MovementEdgeWeight, hw, hs]
  · simp [MovementEdgeWeight, hw, hg, hgf]
  · simp [MovementEdgeWeight, hw, hg, hgf]

/-- Witness for C5: on the witness map a red character pays 10 for the
step and a green character is blocked. -/
theorem movementEdgeWeight_spec_witness :
    MovementEdgeWeight witnessMap Faction.red ⟨0, 0⟩ ⟨1, 0⟩ = some 10
    ∧ MovementEdgeWeight witnessMap Faction.green ⟨0, 0⟩ ⟨1, 0⟩ = none := by
  constructor
  · have h := ((movementEdgeWeight_spec witnessMap Faction.red ⟨0, 0⟩ ⟨1, 0⟩).2
      30 rfl).2 Faction.red rfl
    exact h.1 rfl
  · have h := ((movementEdgeWeight_spec witnessMap Faction.green ⟨0, 0⟩ ⟨1, 0⟩).2
      30 rfl).2 Faction.red rfl
    exact h.2 (by decide)

/-- Characterisation of RegenerateHpType under its entry precondition:
the new current HP is the old one advanced by the carried milli-HP,
capped at the maximum, the new milli-HP is the remainder modulo 1000
except that it is cleared when the maximum is reached, and the
no-overshoot exit assertion never fires. -/
theorem regenerateHpType_spec (maxHp rate oldCur oldMilli : Nat)
    (h : oldCur < maxHp ∨ (oldCur = maxHp ∧ oldMilli = 0)) :
    RegenerateHpType maxHp rate oldCur oldMilli
      = some (min maxHp (oldCur + (oldMilli + rate) / 1000),
          if maxHp ≤ oldCur + (oldMilli + rate) / 1000 then 0
          else (oldMilli + rate) % 1000) := by
  unfold RegenerateHpType
  rw [if_pos h]
  simp only [ge_iff_le]
  have hmod : (oldMilli + rate) % 1000 < 1000 := Nat.mod_lt _ (by norm_num)
  have hdm := Nat.div_add_mod (oldMilli + rate) 1000
  by_cases hc : maxHp ≤ oldCur + (oldMilli + rate) / 1000
  · rw [if_pos hc]
    simp only
    rw [if_pos (show maxHp > oldCur ∨ (maxHp = oldCur ∧ 0 ≥ oldMilli) by omega)]
    rw [if_pos hc]
    have hm : min maxHp (oldCur + (oldMilli + rate) / 1000) = maxHp := by omega
    rw [hm]
  · rw [if_neg hc]
    simp only
    rw [if_pos (show oldCur + (oldMilli + rate) / 1000 > oldCur
        ∨ (oldCur + (oldMilli + rate) / 1000 = oldCur
           ∧ (oldMilli + rate) % 1000 ≥ oldMilli) by omega)]
    rw [if_neg hc]
    have hm : min maxHp (oldCur + (oldMilli + rate) / 1000)
        = oldCur + (oldMilli + rate) / 1000 := by omega
    rw [hm]

/-- C7: HP regeneration.  Under the entry preconditions for armour and
shield, RegenerateFighterHP succeeds (so the HP-regen-overshoot
assertion never fires) and produces, for each HP type, the minimum of
the maximum and the advanced value, with milli-HP carried modulo 1000
and cleared at the maximum; the result never exceeds the maximum and
never decreases; and the shield rate -- but not the armour rate -- is
the one given by the shield_regen modifier. -/
theorem regenerateFighterHP_spec (shieldRegenMod : Nat → Nat) (f : RegenFighter)
    (ha : f.hp.armour < f.regen.maxHp.armour
        ∨ (f.hp.armour = f.regen.maxHp.armour ∧ f.hp.mhpArmour = 0))
    (hs : f.hp.shield < f.regen.maxHp.shield
        ∨ (f.hp.shield = f.regen.maxHp.shield ∧ f.hp.mhpShield = 0)) :
    ∃ f', RegenerateFighterHP shieldRegenMod f = some f'
      ∧ f'.regen = f.regen
      ∧ f'.hp.armour = min f.regen.maxHp.armour
          (f.hp.armour + (f.hp.mhpArmour + f.regen.regenMhp.armour) / 1000)
      ∧ f'.hp.mhpArmour
        = (if f.regen.maxHp.armour
              ≤ f.hp.armour + (f.hp.mhpArmour + f.regen.regenMhp.armour) / 1000
           then 0 else (f.hp.mhpArmour + f.regen.regenMhp.armour) % 1000)
      ∧ f'.hp.shield = min f.regen.maxHp.shield
          (f.hp.shield
            + (f.hp.mhpShield + shieldRegenMod f.regen.regenMhp.shield) / 1000)
      ∧ f'.hp.mhpShield
        = (if f.regen.maxHp.shield
              ≤ f.hp.shield
                + (f.hp.mhpShield + shieldRegenMod f.regen.regenMhp.shield) / 1000
           then 0
           else (f.hp.mhpShield + shieldRegenMod f.regen.regenMhp.shield) % 1000)
      ∧ f'.hp.armour ≤ f.regen.maxHp.armour
      ∧ f'.hp.shield ≤ f.regen.maxHp.shield
      ∧ (f'.hp.armour > f.hp.armour
          ∨ (f'.hp.armour = f.hp.armour ∧ f'.hp.mhpArmour ≥ f.hp.mhpArmour))
      ∧ (f'.hp.shield > f.hp.shield
          ∨ (f'.hp.shield = f.hp.shield ∧ f'.hp.mhpShield ≥ f.hp.mhpShield)) := by
  have hA := regenerateHpType_spec f.regen.maxHp.armour f.regen.regenMhp.armour
    f.hp.armour f.hp.mhpArmour ha
  have hS := regenerateHpType_spec f.regen.maxHp.shield
    (shieldRegenMod f.regen.regenMhp.shield) f.hp.shield f.hp.mhpShield hs
  have hEq : RegenerateFighterHP shieldRegenMod f
      = some { f with hp :=
          { armour := min f.regen.maxHp.armour
              (f.hp.armour + (f.hp.mhpArmour + f.regen.regenMhp.armour) / 1000),
            shield := min f.regen.maxHp.shield
              (f.hp.shield
                + (f.hp.mhpShield + shieldRegenMod f.regen.regenMhp.shield) / 1000),
            mhpArmour := if f.regen.maxHp.armour
                ≤ f.hp.armour + (f.hp.mhpArmour + f.regen.regenMhp.armour) / 1000
              then 0 else (f.hp.mhpArmour + f.regen.regenMhp.armour) % 1000,
            mhpShield := if f.regen.maxHp.shield
                ≤ f.hp.shield
                  + (f.hp.mhpShield + shieldRegenMod f.regen.regenMhp.shield) / 1000
              then 0
              else (f.hp.mhpShield + shieldRegenMod f.regen.regenMhp.shield) % 1000 } }
      := by
    simp only [RegenerateFighterHP, hA, hS]
  have hdmA := Nat.div_add_mod (f.hp.mhpArmour + f.regen.regenMhp.armour) 1000
  have hmodA : (f.hp.mhpArmour + f.regen.regenMhp.armour) % 1000 < 1000 :=
    Nat.mod_lt _ (by norm_num)
  have hdmS := Nat.div_add_mod
    (f.hp.mhpShield + shieldRegenMod f.regen.regenMhp.shield) 1000
  have hmodS : (f.hp.mhpShield + shieldRegenMod f.regen.regenMhp.shield) % 1000
      < 1000 := Nat.mod_lt _ (by norm_num)
  refine ⟨_, hEq, rfl, rfl, rfl, rfl, rfl, Nat.min_le_left _ _, Nat.min_le_left _ _,
    ?_, ?_⟩
  · dsimp only
    by_cases hc : f.regen.maxHp.armour
        ≤ f.hp.armour + (f.hp.mhpArmour + f.regen.regenMhp.armour) / 1000
    · simp only [if_pos hc, Nat.min_eq_left hc]
      omega
    · have hle : f.hp.armour + (f.hp.mhpArmour + f.regen.regenMhp.armour) / 1000
          ≤ f.regen.maxHp.armour := le_of_not_le hc
      simp only [if_neg hc, Nat.min_eq_right hle]
      omega
  · dsimp only
    by_cases hc : f.regen.maxHp.shield
        ≤ f.hp.shield
          + (f.hp.mhpShield + shieldRegenMod f.regen.regenMhp.shield) / 1000
    · simp only [if_pos hc, Nat.min_eq_left hc]
      omega
    · have hle : f.hp.shield
          + (f.hp.mhpShield + shieldRegenMod f.regen.regenMhp.shield) / 1000
          ≤ f.regen.maxHp.shield := le_of_not_le hc
      simp only [if_neg hc, Nat.min_eq_right hle]
      omega

/-- Witness for C7: a fighter one armour HP and one shield HP below the
maximum, regenerated with a doubling shield modifier, reaches exactly
the maximum on both types. -/
theorem regenerateFighterHP_spec_witness :
    ∃ f', RegenerateFighterHP (fun n => 2 * n)
        { regen := { maxHp := { armour := 10, shield := 10 },
                     regenMhp := { armour := 500, shield := 300 } },
          hp := { armour := 9, shield := 9, mhpArmour := 700, mhpShield := 900 } }
        = some f'
      ∧ f'.hp.armour = 10 ∧ f'.hp.shield = 10 := by
  obtain ⟨f', h1, _, h3, _, h5, _⟩ :=
    regenerateFighterHP_spec (fun n => 2 * n)
      { regen := { maxHp := { armour := 10, shield := 10 },
                   regenMhp := { armour := 500, shield := 300 } },
        hp := { armour := 9, shield := 9, mhpArmour := 700, mhpShield := 900 } }
      (by norm_num) (by norm_num)
  exact ⟨f', h1, by rw [h3]; decide, by rw [h5]; decide⟩

theorem processBusyList_ok (cs : List BusyCharacter)
    (h : ∀ c ∈ cs, c.busy = 1 → c.busyCase = BusyCase.prospection) :
    processBusyList cs = Except.ok (cs.map fun c =>
      if c.busy = 1 then { c with busy := 0, prospectionFinished := true }
      else c) := by
  induction cs with
  | nil => rfl
  | cons c rest ih =>
      have hrest : ∀ x ∈ rest, x.busy = 1 → x.busyCase = BusyCase.prospection :=
        fun x hx => h x (List.mem_cons_of_mem c hx)
      simp only [List.map_cons, processBusyList, ih hrest]
      by_cases hb : c.busy = 1
      · have hc := h c (List.mem_cons_self c rest) hb
        simp [processBusyChar, hb, hc, FinishProspecting]
      · simp [processBusyChar, hb]

theorem processBusyList_fatal (cs : List BusyCharacter) (c : BusyCharacter)
    (t : Nat) (hmem : c ∈ cs) (hb : c.busy = 1)
    (hcase : c.busyCase = BusyCase.unknown t) :
    ∃ e, processBusyList cs = Except.error e := by
  induction cs with
  | nil => cases hmem
  | cons d rest ih =>
      rcases List.mem_cons.1 hmem with h | h
      · subst h
        exact ⟨"Unexpected busy case",
          by simp [processBusyList, processBusyChar, hb, hcase]⟩
      · obtain ⟨e, he⟩ := ih h
        cases hpc : processBusyChar d with
        | error e2 => exact ⟨e2, by simp [processBusyList, hpc]⟩
        | ok d2 => exact ⟨e, by simp [processBusyList, hpc, he]⟩

/-- C6: in the ongoing-operations phase every character with a positive
busy counter has it decremented by exactly one, exactly the characters
whose counter reaches zero run the finaliser of their operation variant
(prospection runs FinishProspecting and ends not busy), and the
dispatch on the variant tag is exhaustive: any unrecognised tag on a
busy-done character aborts the processing with a fatal error. -/
theorem processBusy_spec :
    (∀ cs : List BusyCharacter,
        (∀ c ∈ cs, c.busy = 1 → c.busyCase = BusyCase.prospection) →
        ProcessBusy cs = Except.ok (cs.map fun c =>
          if c.busy = 1 then { c with busy := 0, prospectionFinished := true }
          else if 1 < c.busy then { c with busy := c.busy - 1 }
          else c))
    ∧ (∀ (cs : List BusyCharacter) (c : BusyCharacter) (t : Nat),
        c ∈ cs → c.busy = 1 → c.busyCase = BusyCase.unknown t →
        ∃ e, ProcessBusy cs = Except.error e) := by
  constructor
  · intro cs h
    unfold ProcessBusy
    rw [processBusyList_ok cs h]
    simp only [List.map_map]
    have hfun : (DecrementBusy ∘ fun c : BusyCharacter =>
        if c.busy = 1 then { c with busy := 0, prospectionFinished := true }
        else c)
      = (fun c : BusyCharacter =>
        if c.busy = 1 then { c with busy := 0, prospectionFinished := true }
        else if 1 < c.busy then { c with busy := c.busy - 1 }
        else c) := by
      funext c
      simp only [Function.comp]
      by_cases hb : c.busy = 1
      · simp [hb, DecrementBusy]
      · by_cases hb2 : 1 < c.busy
        · have h0 : 0 < c.busy := by omega
          simp [hb, hb2, DecrementBusy, h0]
        · have h0 : c.busy = 0 := by omega
          simp [hb, hb2, DecrementBusy, h0]
    rw [hfun]
  · intro cs c t hmem hb hcase
    obtain ⟨e, he⟩ := processBusyList_fatal cs c t hmem hb hcase
    exact ⟨e, by simp [ProcessBusy, he]⟩

/-- Witness for C6: a busy-done prospector finishes, a character with
three busy blocks is decremented, an idle one is untouched; and a
busy-done character with an unknown tag is a fatal error. -/
theorem processBusy_spec_witness :
    ProcessBusy [{ busy := 1 },
        { busy := 3, busyCase := BusyCase.unknown 5 }, { busy := 0 }]
      = Except.ok [{ busy := 0, prospectionFinished := true },
        { busy := 2, busyCase := BusyCase.unknown 5 }, { busy := 0 }]
    ∧ ∃ e, ProcessBusy [{ busy := 1, busyCase := BusyCase.unknown 7 }]
        = Except.error e := by
  constructor
  · have h := processBusy_spec.1
      [{ busy := 1 }, { busy := 3, busyCase := BusyCase.unknown 5 },
        { busy := 0 }] (by decide)
    rw [h]
    rfl
  · exact processBusy_spec.2 _ { busy := 1, busyCase := BusyCase.unknown 7 } 7
      (by simp) rfl rfl

/-- C9: attacks on corpses are complete no-ops that consume no
randomness: for a target whose key is in the already-dead set (and that
is not in a no-combat zone, which would be a CHECK failure before the
corpse test), ApplyDamage returns zero damage done and leaves the
target HP, the PRNG position, the damage list and the new-dead set
completely unchanged. -/
theorem applyDamage_alreadyDead (noCombat : HexCoord → Bool)
    (alreadyDead : List TargetKey) (hitChanceMod : Int → Int)
    (recvDamageMod : Nat → Int) (dmg : Nat) (attackerKey : TargetKey)
    (pb : Damage) (target : DamageTarget) (st : DamageState)
    (hzone : noCombat target.pos = false) (hdead : target.key ∈ alreadyDead) :
    ApplyDamage noCombat alreadyDead hitChanceMod recvDamageMod dmg attackerKey
      pb target st = some ({}, target, st) := by
  unfold ApplyDamage
  simp [hzone, hdead]

/-- Witness for C9 at a concrete dead character target. -/
theorem applyDamage_alreadyDead_witness :
    ApplyDamage (fun _ => false) [⟨TYPE_CHARACTER, 42⟩] (fun c => c)
      (fun d => (d : Int)) 7 ⟨TYPE_CHARACTER, 1⟩ {}
      { key := ⟨TYPE_CHARACTER, 42⟩, pos := ⟨0, 0⟩, hp := { armour := 5 } }
      { rng := { stream := fun _ => 0 } }
      = some ({},
          { key := ⟨TYPE_CHARACTER, 42⟩, pos := ⟨0, 0⟩, hp := { armour := 5 } },
          { rng := { stream := fun _ => 0 } }) :=
  applyDamage_alreadyDead _ _ _ _ _ _ _ _ _ rfl (by simp)

theorem runningMinDist_le (pos : HexCoord) (l : List FighterInfo) (m : Nat) :
    runningMinDist pos m l ≤ m := by
  induction l generalizing m with
  | nil => exact le_refl m
  | cons c rest ih =>
      calc runningMinDist pos m (c :: rest)
          = runningMinDist pos (min m (DistanceL1 pos c.pos)) rest := rfl
        _ ≤ min m (DistanceL1 pos c.pos) := ih _
        _ ≤ m := Nat.min_le_left _ _

theorem runningMinDist_attained (pos : HexCoord) (l : List FighterInfo) :
    ∀ m, runningMinDist pos m l = m
      ∨ ∃ c ∈ l, DistanceL1 pos c.pos = runningMinDist pos m l := by
  induction l with
  | nil => exact fun m => Or.inl rfl
  | cons c rest ih =>
      intro m
      have hcons : runningMinDist pos m (c :: rest)
          = runningMinDist pos (min m (DistanceL1 pos c.pos)) rest := rfl
      rcases ih (min m (DistanceL1 pos c.pos)) with h | ⟨x, hx, hdx⟩
      · by_cases hd : DistanceL1 pos c.pos ≤ m
        · refine Or.inr ⟨c, List.mem_cons_self c rest, ?_⟩
          rw [hcons, h]
          omega
        · left
          rw [hcons, h]
          omega
      · exact Or.inr ⟨x, List.mem_cons_of_mem c hx, by rw [hcons]; exact hdx⟩

theorem closestStep_fold (pos : HexCoord) (l : List FighterInfo) :
    ∀ (m : Nat) (ts : List FighterInfo),
    l.foldl (closestStep pos) (some (m, ts))
      = some (runningMinDist pos m l,
          (if runningMinDist pos m l = m then ts else [])
            ++ l.filter (fun c =>
                decide (DistanceL1 pos c.pos = runningMinDist pos m l))) := by
  induction l with
  | nil =>
      intro m ts
      simp [runningMinDist]
  | cons c rest ih =>
      intro m ts
      have hcons : runningMinDist pos m (c :: rest)
          = runningMinDist pos (min m (DistanceL1 pos c.pos)) rest := rfl
      have hle : runningMinDist pos (min m (DistanceL1 pos c.pos)) rest
          ≤ min m (DistanceL1 pos c.pos) := runningMinDist_le _ _ _
      rw [List.foldl_cons]
      by_cases h1 : DistanceL1 pos c.pos < m
      · have hstep : closestStep pos (some (m, ts)) c
            = some (DistanceL1 pos c.pos, [c]) := by
          simp [closestStep, h1]
        have hmin : min m (DistanceL1 pos c.pos) = DistanceL1 pos c.pos := by
          omega
        rw [hstep, ih, hcons, hmin]
        rw [hmin] at hle
        have hne : runningMinDist pos (DistanceL1 pos c.pos) rest ≠ m := by
          omega
        rw [if_neg hne]
        simp only [List.filter_cons, decide_eq_true_eq]
        by_cases h2 : DistanceL1 pos c.pos
            = runningMinDist pos (DistanceL1 pos c.pos) rest
        · rw [if_pos h2.symm, if_pos h2]
          simp
        · rw [if_neg (fun he => h2 he.symm), if_neg h2]
      · by_cases h2 : DistanceL1 pos c.pos = m
        · have hstep : closestStep pos (some (m, ts)) c
              = some (m, ts ++ [c]) := by
            simp [closestStep, h1, h2]
          have hmin : min m (DistanceL1 pos c.pos) = m := by omega
          rw [hstep, ih, hcons, hmin]
          simp only [List.filter_cons, decide_eq_true_eq]
          by_cases h3 : runningMinDist pos m rest = m
          · rw [if_pos h3, if_pos h3, if_pos (show DistanceL1 pos c.pos
                = runningMinDist pos m rest by omega)]
            simp
          · rw [if_neg h3, if_neg h3, if_neg (show ¬ DistanceL1 pos c.pos
                = runningMinDist pos m rest by omega)]
        · have hstep : closestStep pos (some (m, ts)) c = some (m, ts) := by
            simp [closestStep, h1, h2]
          have hmin : min m (DistanceL1 pos c.pos) = m := by omega
          rw [hstep, ih, hcons, hmin]
          have hrle := runningMinDist_le pos rest m
          simp only [List.filter_cons, decide_eq_true_eq]
          rw [if_neg (show ¬ DistanceL1 pos c.pos
              = runningMinDist pos m rest by omega)]

theorem selectFold_spec (pos : HexCoord) (l : List FighterInfo) (hne : l ≠ []) :
    l.foldl (closestStep pos) none
      = some (minDistOf pos l,
          l.filter (fun x =>
            decide (DistanceL1 pos x.pos = minDistOf pos l))) := by
  match l, hne with
  | c :: rest, _ =>
      rw [List.foldl_cons]
      have hsc : closestStep pos none c
          = some (DistanceL1 pos c.pos, [c]) := rfl
      have hmd : minDistOf pos (c :: rest)
          = runningMinDist pos (DistanceL1 pos c.pos) rest := rfl
      rw [hsc, closestStep_fold, hmd]
      simp only [List.filter_cons, decide_eq_true_eq]
      by_cases h : DistanceL1 pos c.pos
          = runningMinDist pos (DistanceL1 pos c.pos) rest
      · rw [if_pos h.symm, if_pos h]
        simp
      · rw [if_neg (fun he => h he.symm), if_neg h]
        simp

theorem processCombatTargets_enemies (cands : List FighterInfo)
    (noCombat : HexCoord → Bool) (f : AttackerInfo) (range : Nat) :
    ProcessCombatTargets cands noCombat f f.pos range true
      = eligibleEnemies noCombat cands f range := by
  unfold ProcessCombatTargets ProcessL1Targets eligibleEnemies
  rw [List.filter_filter]
  apply List.filter_congr
  intro c _
  by_cases h1 : DistanceL1 f.pos c.pos ≤ range <;>
    by_cases h2 : c.faction = f.faction <;>
      cases hm : f.mentecon <;>
        simp [h1, h2, hm]

theorem minDistOf_attained (pos : HexCoord) (l : List FighterInfo)
    (hne : l ≠ []) : ∃ c ∈ l, DistanceL1 pos c.pos = minDistOf pos l := by
  match l, hne with
  | c :: rest, _ =>
      have hmd : minDistOf pos (c :: rest)
          = runningMinDist pos (DistanceL1 pos c.pos) rest := rfl
      rcases runningMinDist_attained pos rest (DistanceL1 pos c.pos) with
        h | ⟨x, hx, hdx⟩
      · exact ⟨c, List.mem_cons_self c rest, by rw [hmd, h]⟩
      · exact ⟨x, List.mem_cons_of_mem c hx, by rw [hmd]; exact hdx⟩

theorem selectNormalTarget_spec (modRange : Nat → Nat)
    (noCombat : HexCoord → Bool) (cands : List FighterInfo)
    (f : AttackerInfo) (r : Nat) (hr : f.attackRange = some r) :
    SelectNormalTarget modRange noCombat cands f
      = (eligibleEnemies noCombat cands f (modRange r)).filter
          (fun c => decide (DistanceL1 f.pos c.pos
            = minDistOf f.pos (eligibleEnemies noCombat cands f (modRange r)))) := by
  unfold SelectNormalTarget
  rw [hr]
  simp only
  rw [processCombatTargets_enemies]
  generalize eligibleEnemies noCombat cands f (modRange r) = E
  cases E with
  | nil => rfl
  | cons c rest =>
      rw [selectFold_spec f.pos (c :: rest) (by simp)]

/-- C4: combat target acquisition for one fighter: a fighter standing
in a no-combat zone always ends with its target cleared; for a fighter
with a normal attack outside such a zone, the collected list is exactly
the list of eligible enemies at the minimum L1 distance within the
modified attack range (excluding the fighter itself and fighters on
no-combat tiles); if that list is empty the target is cleared, and
otherwise the target is the element of the list picked by the NextInt
draw of the PRNG on its size. -/
theorem findCombatTargets_spec (rndNextInt modRange : Nat → Nat)
    (noCombat : HexCoord → Bool) (cands : List FighterInfo) (f : AttackerInfo)
    (hrnd : ∀ n, 0 < n → rndNextInt n < n) :
    (noCombat f.pos = true →
      acquireTarget rndNextInt modRange noCombat cands f = none)
    ∧ (∀ r, f.attackRange = some r → noCombat f.pos = false →
        SelectTarget modRange noCombat cands f
          = (eligibleEnemies noCombat cands f (modRange r)).filter
              (fun c => decide (DistanceL1 f.pos c.pos
                = minDistOf f.pos (eligibleEnemies noCombat cands f (modRange r))))
        ∧ (eligibleEnemies noCombat cands f (modRange r) = [] →
            acquireTarget rndNextInt modRange noCombat cands f = none)
        ∧ (eligibleEnemies noCombat cands f (modRange r) ≠ [] →
            ∃ c, (SelectTarget modRange noCombat cands f).get?
                  (rndNextInt (SelectTarget modRange noCombat cands f).length)
                = some c
              ∧ acquireTarget rndNextInt modRange noCombat cands f
                = some c.key)) := by
  constructor
  · intro h
    simp [acquireTarget, SelectTarget, h, Finalise]
  · intro r hr hz
    have hsel : SelectTarget modRange noCombat cands f
        = (eligibleEnemies noCombat cands f (modRange r)).filter
            (fun c => decide (DistanceL1 f.pos c.pos
              = minDistOf f.pos (eligibleEnemies noCombat cands f (modRange r))))
        := by
      unfold SelectTarget
      rw [if_neg (by simp [hz])]
      exact selectNormalTarget_spec modRange noCombat cands f r hr
    set E := eligibleEnemies noCombat cands f (modRange r) with hEdef
    set F := E.filter (fun c =>
      decide (DistanceL1 f.pos c.pos = minDistOf f.pos E)) with hFdef
    refine ⟨hsel, fun hE => ?_, fun hE => ?_⟩
    · unfold acquireTarget
      rw [hsel, hFdef, hE]
      rfl
    · obtain ⟨c0, hc0mem, hc0d⟩ := minDistOf_attained f.pos E hE
      have hmemf : c0 ∈ F := List.mem_filter.2 ⟨hc0mem, by simp [hc0d]⟩
      have hfne := List.ne_nil_of_mem hmemf
      have hlen := List.length_pos.2 hfne
      have hidx : rndNextInt F.length < F.length := hrnd _ hlen
      refine ⟨F.get ⟨rndNextInt F.length, hidx⟩, ?_, ?_⟩
      · rw [hsel]
        exact List.get?_eq_get hidx
      · unfold acquireTarget Finalise
        rw [hsel]
        have hemp : F.isEmpty = false := by
          cases hF : F with
          | nil => exact absurd hF hfne
          | cons a l => rfl
        rw [if_neg (by rw [hemp]; exact Bool.false_ne_true)]
        rw [List.get?_eq_get hidx]
        rfl

/-- Witness for C4: with four candidate fighters (two enemies at
distances one and two, a friendly, and the fighter itself), the
collected list is the single closest enemy and it becomes the target. -/
theorem findCombatTargets_spec_witness :
    SelectTarget (fun r => r) (fun _ => false)
        [{ key := ⟨1, 2⟩, pos := ⟨1, 0⟩, faction := Faction.green },
         { key := ⟨1, 3⟩, pos := ⟨2, 0⟩, faction := Faction.green },
         { key := ⟨1, 4⟩, pos := ⟨0, 1⟩, faction := Faction.red },
         { key := ⟨1, 1⟩, pos := ⟨0, 0⟩, faction := Faction.red }]
        { key := ⟨1, 1⟩, pos := ⟨0, 0⟩, faction := Faction.red,
          attackRange := some 5 }
      = [{ key := ⟨1, 2⟩, pos := ⟨1, 0⟩, faction := Faction.green }]
    ∧ acquireTarget (fun n => n - 1) (fun r => r) (fun _ => false)
        [{ key := ⟨1, 2⟩, pos := ⟨1, 0⟩, faction := Faction.green },
         { key := ⟨1, 3⟩, pos := ⟨2, 0⟩, faction := Faction.green },
         { key := ⟨1, 4⟩, pos := ⟨0, 1⟩, faction := Faction.red },
         { key := ⟨1, 1⟩, pos := ⟨0, 0⟩, faction := Faction.red }]
        { key := ⟨1, 1⟩, pos := ⟨0, 0⟩, faction := Faction.red,
          attackRange := some 5 }
      = some ⟨1, 2⟩ := by
  obtain ⟨h1, h2⟩ := findCombatTargets_spec (fun n => n - 1) (fun r => r)
    (fun _ => false)
    [{ key := ⟨1, 2⟩, pos := ⟨1, 0⟩, faction := Faction.green },
     { key := ⟨1, 3⟩, pos := ⟨2, 0⟩, faction := Faction.green },
     { key := ⟨1, 4⟩, pos := ⟨0, 1⟩, faction := Faction.red },
     { key := ⟨1, 1⟩, pos := ⟨0, 0⟩, faction := Faction.red }]
    { key := ⟨1, 1⟩, pos := ⟨0, 0⟩, faction := Faction.red,
      attackRange := some 5 }
    (fun n hn => Nat.sub_lt hn Nat.one_pos)
  obtain ⟨h3, h4, h5⟩ := h2 5 rfl rfl
  have hsel : SelectTarget (fun r => r) (fun _ => false)
      [{ key := ⟨1, 2⟩, pos := ⟨1, 0⟩, faction := Faction.green },
       { key := ⟨1, 3⟩, pos := ⟨2, 0⟩, faction := Faction.green },
       { key := ⟨1, 4⟩, pos := ⟨0, 1⟩, faction := Faction.red },
       { key := ⟨1, 1⟩, pos := ⟨0, 0⟩, faction := Faction.red }]
      { key := ⟨1, 1⟩, pos := ⟨0, 0⟩, faction := Faction.red,
        attackRange := some 5 }
      = [{ key := ⟨1, 2⟩, pos := ⟨1, 0⟩, faction := Faction.green }] := by
    rw [h3]
    decide
  refine ⟨hsel, ?_⟩
  obtain ⟨c, hc1, hc2⟩ := h5 (by decide)
  rw [hsel] at hc1
  simp at hc1
  rw [hc2, ← hc1]

theorem lookupHP_addGained (l : List (TargetKey × HP)) (k k2 : TargetKey)
    (g : HP) :
    lookupHP (addGained l k g) k2
      = if k2 = k then
          { armour := (lookupHP l k2).armour + g.armour,
            shield := (lookupHP l k2).shield + g.shield }
        else lookupHP l k2 := by
  induction l with
  | nil =>
      by_cases h : k2 = k
      · subst h
        simp [addGained, lookupHP]
      · have h2 : ¬ k = k2 := fun he => h he.symm
        simp [addGained, lookupHP, h, h2]
  | cons p rest ih =>
      obtain ⟨k3, v⟩ := p
      by_cases h3 : k3 = k
      · subst h3
        simp only [addGained, if_pos rfl]
        by_cases h2 : k2 = k3
        · subst h2
          simp [lookupHP]
        · have h2s : ¬ k3 = k2 := fun he => h2 he.symm
          simp [lookupHP, h2, h2s]
      · simp only [addGained, if_neg h3]
        by_cases h2 : k3 = k2
        · subst h2
          simp [lookupHP, h3]
        · simp [lookupHP, h2, ih]

theorem mem_keys_addGained (l : List (TargetKey × HP)) (k x : TargetKey)
    (g : HP) :
    x ∈ (addGained l k g).map Prod.fst
      ↔ x ∈ l.map Prod.fst ∨ x = k := by
  induction l with
  | nil => simp [addGained]
  | cons p rest ih =>
      obtain ⟨k3, v⟩ := p
      by_cases h3 : k3 = k
      · simp only [addGained, if_pos h3, List.map_cons, List.mem_cons]
        subst h3
        tauto
      · simp only [addGained, if_neg h3, List.map_cons, List.mem_cons, ih]
        tauto

theorem addGained_nodup (l : List (TargetKey × HP)) (k : TargetKey) (g : HP)
    (h : (l.map Prod.fst).Nodup) :
    ((addGained l k g).map Prod.fst).Nodup := by
  induction l with
  | nil => simp [addGained]
  | cons p rest ih =>
      obtain ⟨k3, v⟩ := p
      simp only [List.map_cons, List.nodup_cons] at h
      by_cases h3 : k3 = k
      · simp only [addGained, if_pos h3, List.map_cons, List.nodup_cons]
        exact h
      · simp only [addGained, if_neg h3, List.map_cons, List.nodup_cons]
        refine ⟨?_, ih h.2⟩
        rw [mem_keys_addGained]
        rintro (hm | hm)
        · exact h.1 hm
        · exact h3 hm

theorem addGained_values (l : List (TargetKey × HP)) (k : TargetKey) (g : HP)
    (hg : g.armour = 0 ∧ 0 < g.shield)
    (hl : ∀ p ∈ l, p.2.armour = 0 ∧ 0 < p.2.shield) :
    ∀ p ∈ addGained l k g, p.2.armour = 0 ∧ 0 < p.2.shield := by
  induction l with
  | nil =>
      intro p hp
      simp only [addGained, List.mem_singleton] at hp
      subst hp
      exact hg
  | cons q rest ih =>
      obtain ⟨k3, v⟩ := q
      have hv : v.armour = 0 ∧ 0 < v.shield :=
        hl (k3, v) (List.mem_cons_self _ _)
      have hrest : ∀ p ∈ rest, p.2.armour = 0 ∧ 0 < p.2.shield :=
        fun p hp => hl p (List.mem_cons_of_mem _ hp)
      obtain ⟨hva, hvs⟩ := hv
      obtain ⟨hga, hgs⟩ := hg
      by_cases h3 : k3 = k
      · intro p hp
        simp only [addGained, if_pos h3, List.mem_cons] at hp
        rcases hp with hp | hp
        · subst hp
          constructor
          · show v.armour + g.armour = 0
            omega
          · show 0 < v.shield + g.shield
            omega
        · exact hrest p hp
      · intro p hp
        simp only [addGained, if_neg h3, List.mem_cons] at hp
        rcases hp with hp | hp
        · subst hp
          exact ⟨hva, hvs⟩
        · exact ih hrest p hp

theorem lookupHP_not_mem (l : List (TargetKey × HP)) (a : TargetKey)
    (h : a ∉ l.map Prod.fst) : lookupHP l a = {} := by
  induction l with
  | nil => rfl
  | cons p rest ih =>
      obtain ⟨k, v⟩ := p
      simp only [List.map_cons, List.mem_cons] at h
      push_neg at h
      have h1 : ¬ k = a := fun he => h.1 he.symm
      simp only [lookupHP, if_neg h1]
      exact ih h.2

theorem lookupHP_mem (l : List (TargetKey × HP)) (a : TargetKey)
    (h : a ∈ l.map Prod.fst) : (a, lookupHP l a) ∈ l := by
  induction l with
  | nil => simp at h
  | cons p rest ih =>
      obtain ⟨k, v⟩ := p
      by_cases hk : k = a
      · subst hk
        simp [lookupHP]
      · simp only [List.map_cons, List.mem_cons] at h
        rcases h with h | h
        · exact absurd h.symm hk
        · simp only [lookupHP, if_neg hk]
          exact List.mem_cons_of_mem _ (ih h)

theorem reconcileAttackers_spec (tHp : HP) (n : Nat) :
    ∀ (atks acc : List (TargetKey × HP)),
    (∀ p ∈ atks, p.2.armour = 0 ∧ 0 < p.2.shield) →
    ∃ out, reconcileAttackers tHp n acc atks = some out
      ∧ (∀ a, (lookupHP out a).armour = (lookupHP acc a).armour)
      ∧ (∀ a, (lookupHP out a).shield = (lookupHP acc a).shield
          + (atks.map fun p =>
              if p.1 = a ∧ (0 < tHp.shield ∨ n = 1)
              then p.2.shield else 0).sum)
      ∧ (accWF acc → accWF out) := by
  intro atks
  induction atks with
  | nil =>
      intro acc h
      exact ⟨acc, rfl, fun a => rfl, fun a => by simp, id⟩
  | cons p rest ih =>
      intro acc h
      obtain ⟨a1, d⟩ := p
      obtain ⟨hda, hds⟩ : d.armour = 0 ∧ 0 < d.shield :=
        h (a1, d) (List.mem_cons_self _ _)
      have hrest : ∀ p ∈ rest, p.2.armour = 0 ∧ 0 < p.2.shield :=
        fun p hp => h p (List.mem_cons_of_mem _ hp)
      have hcd : reconcileDrain tHp n d = some
          { armour := if 0 < tHp.armour ∨ n = 1 then d.armour else 0,
            shield := if 0 < tHp.shield ∨ n = 1 then d.shield else 0 } := by
        unfold reconcileDrain
        rw [if_neg (by omega), if_neg (by omega)]
      by_cases hc : 0 < tHp.shield ∨ n = 1
      · have hg : ({ armour := if 0 < tHp.armour ∨ n = 1 then d.armour else 0,
                     shield := if 0 < tHp.shield ∨ n = 1 then d.shield else 0 }
              : HP)
            = { armour := 0, shield := d.shield } := by
          rw [if_pos hc]
          by_cases ha : 0 < tHp.armour ∨ n = 1 <;> simp [ha, hda]
        obtain ⟨out, hout, harm, hsh, hwfp⟩ :=
          ih (addGained acc a1 { armour := 0, shield := d.shield }) hrest
        have hguard : 0 < ({ armour := 0, shield := d.shield } : HP).armour
            ∨ 0 < ({ armour := 0, shield := d.shield } : HP).shield :=
          Or.inr hds
        refine ⟨out, ?_, ?_, ?_, ?_⟩
        · simp only [reconcileAttackers, hcd, hg]
          rw [if_pos hguard]
          exact hout
        · intro a
          rw [harm a, lookupHP_addGained]
          by_cases ha : a = a1
          · subst ha
            simp
          · simp [ha]
        · intro a
          rw [hsh a, lookupHP_addGained]
          simp only [List.map_cons, List.sum_cons]
          by_cases ha : a = a1
          · subst ha
            rw [if_pos rfl]
            rw [if_pos (show (a, d).1 = a ∧ (0 < tHp.shield ∨ n = 1)
              from ⟨rfl, hc⟩)]
            simp only
            omega
          · rw [if_neg ha]
            rw [if_neg (show ¬ ((a1, d).1 = a ∧ (0 < tHp.shield ∨ n = 1))
              from fun hco => ha (hco.1.symm))]
            omega
        · intro hacc
          refine hwfp ⟨addGained_nodup _ _ _ hacc.1, ?_⟩
          exact addGained_values _ _ _ ⟨rfl, hds⟩ hacc.2
      · have hg : ({ armour := if 0 < tHp.armour ∨ n = 1 then d.armour else 0,
                     shield := if 0 < tHp.shield ∨ n = 1 then d.shield else 0 }
              : HP)
            = { armour := 0, shield := 0 } := by
          rw [if_neg hc]
          by_cases ha : 0 < tHp.armour ∨ n = 1 <;> simp [ha, hda]
        obtain ⟨out, hout, harm, hsh, hwfp⟩ := ih acc hrest
        refine ⟨out, ?_, harm, ?_, hwfp⟩
        · simp only [reconcileAttackers, hcd, hg]
          rw [if_neg (by simp)]
          exact hout
        · intro a
          rw [hsh a]
          simp only [List.map_cons, List.sum_cons]
          rw [if_neg (show ¬ ((a1, d).1 = a ∧ (0 < tHp.shield ∨ n = 1))
            from fun hco => hc hco.2)]
          omega

theorem reconcileGainedHp_spec (fighterHp : TargetKey → HP) :
    ∀ (drained : List (TargetKey × List (TargetKey × HP)))
      (acc : List (TargetKey × HP)),
    (∀ e ∈ drained, e.2 ≠ [] ∧ ∀ p ∈ e.2, p.2.armour = 0 ∧ 0 < p.2.shield) →
    ∃ out, reconcileGainedHp fighterHp drained acc = some out
      ∧ (∀ a, (lookupHP out a).armour = (lookupHP acc a).armour)
      ∧ (∀ a, (lookupHP out a).shield = (lookupHP acc a).shield
          + totalCredit fighterHp drained a)
      ∧ (accWF acc → accWF out) := by
  intro drained
  induction drained with
  | nil =>
      intro acc h
      exact ⟨acc, rfl, fun a => rfl, fun a => by simp [totalCredit], id⟩
  | cons e rest ih =>
      intro acc h
      obtain ⟨t, atks⟩ := e
      obtain ⟨hne, hwf⟩ := h (t, atks) (List.mem_cons_self _ _)
      have hisEmpty : atks.isEmpty = false := by
        cases atks with
        | nil => exact absurd rfl hne
        | cons _ _ => rfl
      obtain ⟨acc2, hacc2, harm2, hsh2, hwf2⟩ :=
        reconcileAttackers_spec (fighterHp t) atks.length atks acc hwf
      obtain ⟨out, hout, harm, hsh, hwfp⟩ :=
        ih acc2 (fun e2 he2 => h e2 (List.mem_cons_of_mem _ he2))
      refine ⟨out, ?_, ?_, ?_, fun hacc => hwfp (hwf2 hacc)⟩
      · simp only [reconcileGainedHp, hisEmpty, hacc2, hout]
        rfl
      · intro a
        rw [harm a, harm2 a]
      · intro a
        rw [hsh a, hsh2 a]
        simp only [totalCredit, drainCredit, List.map_cons, List.sum_cons]
        omega

theorem creditGainedHp_not_mem (dead : List TargetKey) (maxHp : TargetKey → HP) :
    ∀ (l : List (TargetKey × HP)) (hp : TargetKey → HP) (a : TargetKey),
    a ∉ l.map Prod.fst → creditGainedHp dead maxHp l hp a = hp a := by
  intro l
  induction l with
  | nil => intro hp a _; rfl
  | cons p rest ih =>
      intro hp a ha
      obtain ⟨k, g⟩ := p
      simp only [List.map_cons, List.mem_cons] at ha
      push_neg at ha
      simp only [creditGainedHp]
      rw [ih _ a ha.2]
      by_cases hk : k ∈ dead
      · rw [if_pos hk]
      · rw [if_neg hk, if_neg ha.1]

theorem creditGainedHp_mem (dead : List TargetKey) (maxHp : TargetKey → HP) :
    ∀ (l : List (TargetKey × HP)) (hp : TargetKey → HP) (a : TargetKey) (g : HP),
    (l.map Prod.fst).Nodup → (a, g) ∈ l →
    creditGainedHp dead maxHp l hp a
      = if a ∈ dead then hp a
        else { armour := min ((hp a).armour + g.armour) ((maxHp a).armour),
               shield := min ((hp a).shield + g.shield) ((maxHp a).shield) } := by
  intro l
  induction l with
  | nil => intro hp a g _ hmem; cases hmem
  | cons p rest ih =>
      intro hp a g hnd hmem
      obtain ⟨k, v⟩ := p
      simp only [List.map_cons, List.nodup_cons] at hnd
      rcases List.mem_cons.1 hmem with heq | hmem2
      · have hak : a = k := congrArg Prod.fst heq
        have hgv : g = v := congrArg Prod.snd heq
        subst hak
        subst hgv
        simp only [creditGainedHp]
        rw [creditGainedHp_not_mem dead maxHp rest _ a hnd.1]
        by_cases hdead : a ∈ dead
        · rw [if_pos hdead, if_pos hdead]
        · rw [if_neg hdead, if_neg hdead]
          simp
      · have hmemkeys : a ∈ rest.map Prod.fst :=
          List.mem_map.2 ⟨(a, g), hmem2, rfl⟩
        simp only [creditGainedHp]
        rw [ih _ a g hnd.2 hmem2]
        have hpa : (if k ∈ dead then hp
            else fun k2 => if k2 = k then
              { armour := min ((hp k).armour + v.armour) ((maxHp k).armour),
                shield := min ((hp k).shield + v.shield) ((maxHp k).shield) }
            else hp k2) a = hp a := by
          by_cases hk : k ∈ dead
          · rw [if_pos hk]
          · rw [if_neg hk]
            have hak : ¬ a = k := fun he => hnd.1 (he ▸ hmemkeys)
            simp [hak]
        rw [hpa]

/-- C1: gain-HP reconciliation in DealCombatDamage.  For every
well-formed drained map of a damage round (non-empty attacker maps,
shield-only positive drains, as enforced by the CHECK assertions), the
reconciliation succeeds and credits each attacker exactly the shield it
drained from each target, but only from targets that still have shield
left after the gain-HP pass or that were drained by exactly one
attacker; the credit is clamped so the attacker HP does not exceed its
maximum; if more than one attacker drained a target whose shield is
exhausted, that target credits nothing to anyone; and attackers in the
already-dead set are never credited. -/
theorem gainHp_reconciliation (fighterHp maxHp hpAt : TargetKey → HP)
    (alreadyDead : List TargetKey)
    (drained : List (TargetKey × List (TargetKey × HP)))
    (hWF : ∀ e ∈ drained,
      e.2 ≠ [] ∧ ∀ p ∈ e.2, p.2.armour = 0 ∧ 0 < p.2.shield) :
    ∃ gained, reconcileGainedHp fighterHp drained [] = some gained
      ∧ (∀ a, (lookupHP gained a).armour = 0
          ∧ (lookupHP gained a).shield = totalCredit fighterHp drained a)
      ∧ (∀ a, a ∈ alreadyDead →
          creditGainedHp alreadyDead maxHp gained hpAt a = hpAt a)
      ∧ (∀ a, totalCredit fighterHp drained a = 0 →
          creditGainedHp alreadyDead maxHp gained hpAt a = hpAt a)
      ∧ (∀ a, a ∉ alreadyDead → 0 < totalCredit fighterHp drained a →
          creditGainedHp alreadyDead maxHp gained hpAt a
            = { armour := min ((hpAt a).armour) ((maxHp a).armour),
                shield := min ((hpAt a).shield
                    + totalCredit fighterHp drained a)
                  ((maxHp a).shield) })
      ∧ (∀ e ∈ drained, 1 < e.2.length → (fighterHp e.1).shield = 0 →
          ∀ a, drainCredit fighterHp e a = 0)
      ∧ (∀ e ∈ drained, ∀ a d, e.2 = [(a, d)] →
          drainCredit fighterHp e a = d.shield) := by
  obtain ⟨gained, hg, harm, hsh, hwfp⟩ :=
    reconcileGainedHp_spec fighterHp drained [] hWF
  have hwf : accWF gained := hwfp ⟨by simp, by simp⟩
  have hlook : ∀ a, (lookupHP gained a).armour = 0
      ∧ (lookupHP gained a).shield = totalCredit fighterHp drained a :=
    fun a => ⟨by rw [harm a]; rfl, by rw [hsh a]; simp [lookupHP]⟩
  have hmem_of_pos : ∀ a, 0 < totalCredit fighterHp drained a →
      a ∈ gained.map Prod.fst := by
    intro a hpos
    by_contra hnot
    have h0 := lookupHP_not_mem gained a hnot
    have h2 := (hlook a).2
    rw [h0] at h2
    simp at h2
    omega
  refine ⟨gained, hg, hlook, ?_, ?_, ?_, ?_, ?_⟩
  · intro a hdead
    by_cases hm : a ∈ gained.map Prod.fst
    · rw [creditGainedHp_mem alreadyDead maxHp gained hpAt a
        (lookupHP gained a) hwf.1 (lookupHP_mem gained a hm)]
      rw [if_pos hdead]
    · exact creditGainedHp_not_mem alreadyDead maxHp gained hpAt a hm
  · intro a h0
    by_cases hm : a ∈ gained.map Prod.fst
    · have hv := hwf.2 (a, lookupHP gained a) (lookupHP_mem gained a hm)
      have hv2 : 0 < (lookupHP gained a).shield := hv.2
      have h2 := (hlook a).2
      omega
    · exact creditGainedHp_not_mem alreadyDead maxHp gained hpAt a hm
  · intro a hnd hpos
    have hm := hmem_of_pos a hpos
    rw [creditGainedHp_mem alreadyDead maxHp gained hpAt a
      (lookupHP gained a) hwf.1 (lookupHP_mem gained a hm)]
    rw [if_neg hnd, (hlook a).1, (hlook a).2, Nat.add_zero]
  · intro e he hlen hshz a
    simp only [drainCredit]
    apply List.sum_eq_zero
    intro x hx
    obtain ⟨p, hp, rfl⟩ := List.mem_map.1 hx
    rw [if_neg]
    rintro ⟨h1, h2 | h2⟩
    · omega
    · omega
  · intro e he a d hsingle
    simp only [drainCredit]
    rw [hsingle]
    simp

/-- Witness for C1: one target drained by a single attacker with its
shield exhausted still credits that attacker (clamped at its maximum),
while a target exhausted by two attackers credits neither. -/
theorem gainHp_reconciliation_witness :
    ∃ gained, reconcileGainedHp (fun _ => {})
        [(⟨2, 10⟩, [(⟨1, 1⟩, { shield := 5 })]),
         (⟨2, 11⟩, [(⟨1, 1⟩, { shield := 3 }), (⟨1, 2⟩, { shield := 4 })])]
        [] = some gained
      ∧ creditGainedHp [⟨1, 3⟩] (fun _ => { armour := 10, shield := 4 })
          gained (fun _ => { armour := 2, shield := 1 }) ⟨1, 1⟩
        = { armour := 2, shield := 4 }
      ∧ creditGainedHp [⟨1, 3⟩] (fun _ => { armour := 10, shield := 4 })
          gained (fun _ => { armour := 2, shield := 1 }) ⟨1, 2⟩
        = { armour := 2, shield := 1 } := by
  obtain ⟨gained, hg, hlook, hdead, hzero, hcredit, hmulti, hsingle⟩ :=
    gainHp_reconciliation (fun _ => {})
      (fun _ => { armour := 10, shield := 4 })
      (fun _ => { armour := 2, shield := 1 }) [⟨1, 3⟩]
      [(⟨2, 10⟩, [(⟨1, 1⟩, { shield := 5 })]),
       (⟨2, 11⟩, [(⟨1, 1⟩, { shield := 3 }), (⟨1, 2⟩, { shield := 4 })])]
      (by decide)
  refine ⟨gained, hg, ?_, ?_⟩
  · rw [hcredit ⟨1, 1⟩ (by decide) (by decide)]
    decide
  · rw [hzero ⟨1, 2⟩ (by decide)]

end Taurion
